import Mathlib

set_option maxHeartbeats 1000000

/-!
Verification of the Secure Submission & Leaderboard Aggregation Gateway
(`src/poker-server/server.ts`) against its natural-language specification.

The TypeScript source is shallowly embedded: JS `Map`s become association
lists, `Date.now()` becomes an explicit `now : Nat` (milliseconds), JS
bigints become `Nat`/`Int`, and the cryptographic primitives (SHA-256,
HMAC-SHA256) and JS `Number(...)` parsing are abstracted as explicit
function parameters, since the claims quantify over their outputs, not
their internals.  Node specific behaviours that the claims depend on are
modelled exactly: `Buffer.from(s, 'hex')` decodes case-insensitively and
stops at the first non-hex pair, and `crypto.timingSafeEqual` throws when
the two buffers have different lengths.
-/

namespace MonadPoker

/-- Association-list lookup, modelling `Map.get` of a JS `Map` keyed by strings. -/
def lookupA {β : Type} (store : List (String × β)) (k : String) : Option β :=
  match store with
  | [] => none
  | (k', v) :: rest => if k' = k then some v else lookupA rest k

/-- Association-list overwrite-or-insert, modelling `Map.set`. -/
def setA {β : Type} (store : List (String × β)) (k : String) (v : β) :
    List (String × β) :=
  match store with
  | [] => [(k, v)]
  | (k', v') :: rest => if k' = k then (k, v) :: rest else (k', v') :: setA rest k v

theorem lookupA_setA_self {β : Type} (store : List (String × β)) (k : String) (v : β) :
    lookupA (setA store k v) k = some v := by
  induction store with
  | nil => simp [lookupA, setA]
  | cons hd tl ih =>
    obtain ⟨k', v'⟩ := hd
    by_cases h : k' = k
    · simp [lookupA, setA, h]
    · simp [lookupA, setA, h, ih]

theorem lookupA_setA_ne {β : Type} (store : List (String × β)) (k k' : String) (v : β)
    (h : k' ≠ k) : lookupA (setA store k v) k' = lookupA store k' := by
  induction store with
  | nil =>
    have : ¬ (k = k') := fun hh => h hh.symm
    simp [lookupA, setA, this]
  | cons hd tl ih =>
    obtain ⟨k₀, v₀⟩ := hd
    by_cases h₀ : k₀ = k
    · subst h₀
      have h1 : ¬ (k₀ = k') := fun hh => h hh.symm
      simp [lookupA, setA, h1]
    · by_cases h₁ : k₀ = k'
      · simp [lookupA, setA, h₀, h₁, h]
      · simp [lookupA, setA, h₀, h₁, ih]

/-! ## Rate limiter (`class RateLimiter`, server.ts lines 199-215)

The store maps a key to `{ count, resetAt }`.  `RATE_MAX` and
`RATE_LIMIT_WINDOW_MS` are configuration parameters.  Times are in
milliseconds, exactly as `Date.now()`. -/

structure RLEntry where
  count : Nat
  resetAt : Nat
deriving DecidableEq, Repr

structure RLDecision where
  allowed : Bool
  remaining : Int
  retryAfter : Nat
deriving DecidableEq, Repr

/-- Embedding of `RateLimiter.isAllowed`.  Returns the updated store and the
decision.  `Math.ceil((entry.resetAt - now) / 1000)` becomes
`(entry.resetAt - now + 999) / 1000` on naturals, which agrees with it since
`now ≤ entry.resetAt` in the rejecting branch. -/
def RateLimiter.isAllowed (rateMax rateWindowMs : Nat)
    (store : List (String × RLEntry)) (key : String) (now : Nat) :
    List (String × RLEntry) × RLDecision :=
  match lookupA store key with
  | none =>
    (setA store key ⟨1, now + rateWindowMs⟩, ⟨true, (rateMax : Int) - 1, 0⟩)
  | some entry =>
    if now > entry.resetAt then
      (setA store key ⟨1, now + rateWindowMs⟩, ⟨true, (rateMax : Int) - 1, 0⟩)
    else if entry.count ≥ rateMax then
      (store, ⟨false, 0, (entry.resetAt - now + 999) / 1000⟩)
    else
      (setA store key ⟨entry.count + 1, entry.resetAt⟩,
        ⟨true, (rateMax : Int) - ((entry.count : Int) + 1), 0⟩)

/-- One observed limiter call: the request time, the `resetAt` of the window
the request was accounted to, and the decision returned. -/
structure RLObs where
  now : Nat
  tag : Nat
  dec : RLDecision
deriving DecidableEq, Repr

/-- The `resetAt` of the window an incoming request at time `now` falls into
(recomputing the branch taken by `isAllowed`). -/
def rlTag (rateWindowMs : Nat) (store : List (String × RLEntry)) (key : String)
    (now : Nat) : Nat :=
  match lookupA store key with
  | none => now + rateWindowMs
  | some entry => if now > entry.resetAt then now + rateWindowMs else entry.resetAt

/-- Run the limiter over a list of request times for a single key, collecting
the observation of each call. -/
def rlRun (rateMax rateWindowMs : Nat) (key : String)
    (store : List (String × RLEntry)) :
    List Nat → List (String × RLEntry) × List RLObs
  | [] => (store, [])
  | t :: ts =>
    let p := RateLimiter.isAllowed rateMax rateWindowMs store key t
    let obs : RLObs := ⟨t, rlTag rateWindowMs store key t, p.2⟩
    let r := rlRun rateMax rateWindowMs key p.1 ts
    (r.1, obs :: r.2)

/-- Times of the allowed requests in a run. -/
def allowedTimes (obs : List RLObs) : List Nat :=
  (obs.filter (fun o => o.dec.allowed)).map (fun o => o.now)

/-- Claim C7 as stated, first half: within ANY rolling window of the
configured length, at most `rateMax` requests are allowed. -/
def rollingWindowBound (rateMax rateWindowMs : Nat) (obs : List RLObs) : Prop :=
  ∀ a : Nat,
    ((allowedTimes obs).countP (fun t => decide (a ≤ t) && decide (t < a + rateWindowMs)))
      ≤ rateMax

/-- Claim C7 as stated, second half: every rejected in-window request carries
a retry-after hint strictly greater than zero. -/
def rejectionsPositive (obs : List RLObs) : Prop :=
  ∀ o ∈ obs, o.dec.allowed = false → 0 < o.dec.retryAfter

/-- Number of allowed requests accounted to the window whose reset deadline
is `r`. -/
def cntAllowed (obs : List RLObs) (r : Nat) : Nat :=
  obs.countP (fun o => o.dec.allowed && o.tag == r)

theorem rlRun_tags_ge (rateMax rateWindowMs : Nat) (key : String) :
    ∀ (ts : List Nat) (store : List (String × RLEntry)) (e : RLEntry),
      lookupA store key = some e →
      ∀ o ∈ (rlRun rateMax rateWindowMs key store ts).2, e.resetAt ≤ o.tag := by
  intro ts
  induction ts with
  | nil => intro store e _ o ho; simp [rlRun] at ho
  | cons t ts ih =>
    intro store e he o ho
    simp only [rlRun, RateLimiter.isAllowed, rlTag, he, List.mem_cons] at ho
    by_cases hro : t > e.resetAt
    · simp only [hro, if_true, if_pos] at ho
      rcases ho with ho | ho
      · subst ho; simp; omega
      · have := ih (setA store key ⟨1, t + rateWindowMs⟩) ⟨1, t + rateWindowMs⟩
          (lookupA_setA_self _ _ _) o ho
        simp at this; omega
    · simp only [hro, if_false, if_neg] at ho
      by_cases hcnt : e.count ≥ rateMax
      · simp only [hcnt, if_true, if_pos] at ho
        rcases ho with ho | ho
        · subst ho; simp
        · exact ih store e he o ho
      · simp only [hcnt, if_false, if_neg] at ho
        rcases ho with ho | ho
        · subst ho; simp
        · have := ih (setA store key ⟨e.count + 1, e.resetAt⟩) ⟨e.count + 1, e.resetAt⟩
            (lookupA_setA_self _ _ _) o ho
          simpa using this

theorem cntAllowed_eq_zero_of_lt (rateMax rateWindowMs : Nat) (key : String)
    (ts : List Nat) (store : List (String × RLEntry)) (e : RLEntry)
    (he : lookupA store key = some e) (r : Nat) (hr : r < e.resetAt) :
    cntAllowed (rlRun rateMax rateWindowMs key store ts).2 r = 0 := by
  unfold cntAllowed
  rw [List.countP_eq_zero]
  intro o ho
  have := rlRun_tags_ge rateMax rateWindowMs key ts store e he o ho
  simp only [Bool.and_eq_true, beq_iff_eq, not_and]
  intro _ htag
  omega

/-- The per-window quota that remains available given the current store. -/
def rlBound (rateMax : Nat) (store : List (String × RLEntry)) (key : String)
    (r : Nat) : Nat :=
  match lookupA store key with
  | some e => if r = e.resetAt then rateMax - e.count else rateMax
  | none => rateMax

theorem cntAllowed_cons_true (now tag : Nat) (rem : Int) (ra : Nat)
    (obs : List RLObs) (r : Nat) :
    cntAllowed (⟨now, tag, ⟨true, rem, ra⟩⟩ :: obs) r =
      cntAllowed obs r + (if tag = r then 1 else 0) := by
  by_cases h : tag = r <;> simp [cntAllowed, List.countP_cons, h]

theorem cntAllowed_cons_false (now tag : Nat) (rem : Int) (ra : Nat)
    (obs : List RLObs) (r : Nat) :
    cntAllowed (⟨now, tag, ⟨false, rem, ra⟩⟩ :: obs) r = cntAllowed obs r := by
  simp [cntAllowed, List.countP_cons]

theorem rlBound_setA (rateMax : Nat) (store : List (String × RLEntry)) (key : String)
    (c ra : Nat) (r : Nat) :
    rlBound rateMax (setA store key ⟨c, ra⟩) key r =
      if r = ra then rateMax - c else rateMax := by
  simp [rlBound, lookupA_setA_self]

theorem rlBound_of_none (rateMax : Nat) (store : List (String × RLEntry)) (key : String)
    (r : Nat) (he : lookupA store key = none) : rlBound rateMax store key r = rateMax := by
  simp [rlBound, he]

theorem rlBound_of_some (rateMax : Nat) (store : List (String × RLEntry)) (key : String)
    (e : RLEntry) (r : Nat) (he : lookupA store key = some e) :
    rlBound rateMax store key r = if r = e.resetAt then rateMax - e.count else rateMax := by
  simp [rlBound, he]

theorem rlRun_window_bound (rateMax rateWindowMs : Nat) (key : String)
    (hmax : 1 ≤ rateMax) :
    ∀ (ts : List Nat) (store : List (String × RLEntry)),
      (∀ e, lookupA store key = some e → 1 ≤ e.count ∧ e.count ≤ rateMax) →
      ∀ r : Nat,
        cntAllowed (rlRun rateMax rateWindowMs key store ts).2 r ≤
          rlBound rateMax store key r := by
  intro ts
  induction ts with
  | nil =>
    intro store _ r
    simp only [rlRun, cntAllowed, List.countP_nil]
    exact Nat.zero_le _
  | cons t ts ih =>
    intro store hinv r
    have hfreshinv : ∀ e, lookupA (setA store key ⟨1, t + rateWindowMs⟩) key = some e →
        1 ≤ e.count ∧ e.count ≤ rateMax := by
      intro e hh
      rw [lookupA_setA_self] at hh
      cases hh; exact ⟨le_refl 1, hmax⟩
    cases he : lookupA store key with
    | none =>
      have hrec := ih (setA store key ⟨1, t + rateWindowMs⟩) hfreshinv r
      rw [rlBound_setA] at hrec
      rw [rlBound_of_none rateMax store key r he]
      simp only [rlRun, RateLimiter.isAllowed, rlTag, he]
      rw [cntAllowed_cons_true]
      by_cases hrtag : r = t + rateWindowMs
      · rw [if_pos hrtag.symm]
        rw [if_pos hrtag] at hrec
        omega
      · rw [if_neg (fun hh => hrtag hh.symm)]
        rw [if_neg hrtag] at hrec
        omega
    | some e =>
      have hec := hinv e he
      by_cases hro : t > e.resetAt
      · -- lazy window rollover: fresh entry, request allowed
        have hrec := ih (setA store key ⟨1, t + rateWindowMs⟩) hfreshinv r
        rw [rlBound_setA] at hrec
        rw [rlBound_of_some rateMax store key e r he]
        simp only [rlRun, RateLimiter.isAllowed, rlTag, he, hro, if_true, ite_true, ite_false]
        rw [cntAllowed_cons_true]
        by_cases hrtag : r = t + rateWindowMs
        · rw [if_pos hrtag.symm]
          rw [if_pos hrtag] at hrec
          have hne : ¬ (r = e.resetAt) := by omega
          rw [if_neg hne]
          omega
        · rw [if_neg (fun hh => hrtag hh.symm)]
          rw [if_neg hrtag] at hrec
          by_cases hre : r = e.resetAt
          · rw [if_pos hre]
            have hzero := cntAllowed_eq_zero_of_lt rateMax rateWindowMs key ts
              (setA store key ⟨1, t + rateWindowMs⟩) ⟨1, t + rateWindowMs⟩
              (lookupA_setA_self _ _ _) r (by show r < t + rateWindowMs; omega)
            omega
          · rw [if_neg hre]
            omega
      · by_cases hcnt : e.count ≥ rateMax
        · -- rejection: store unchanged, request not allowed
          have hrec := ih store hinv r
          rw [rlBound_of_some rateMax store key e r he] at hrec ⊢
          simp only [rlRun, RateLimiter.isAllowed, rlTag, he, hro, hcnt,
            if_true, if_false]
          rw [cntAllowed_cons_false]
          exact hrec
        · -- in-window increment, request allowed
          have hinv' : ∀ e', lookupA (setA store key ⟨e.count + 1, e.resetAt⟩) key = some e' →
              1 ≤ e'.count ∧ e'.count ≤ rateMax := by
            intro e' hh
            rw [lookupA_setA_self] at hh
            cases hh
            exact ⟨by show 1 ≤ e.count + 1; omega, by show e.count + 1 ≤ rateMax; omega⟩
          have hrec := ih (setA store key ⟨e.count + 1, e.resetAt⟩) hinv' r
          rw [rlBound_setA] at hrec
          rw [rlBound_of_some rateMax store key e r he]
          simp only [rlRun, RateLimiter.isAllowed, rlTag, he, hro, hcnt,
            if_true, if_false]
          rw [cntAllowed_cons_true]
          by_cases hrtag : r = e.resetAt
          · rw [if_pos hrtag.symm, if_pos hrtag]
            rw [if_pos hrtag] at hrec
            omega
          · rw [if_neg (fun hh => hrtag hh.symm), if_neg hrtag]
            rw [if_neg hrtag] at hrec
            omega

theorem rlRun_rejection_shape (rateMax rateWindowMs : Nat) (key : String) :
    ∀ (ts : List Nat) (store : List (String × RLEntry)),
      ∀ o ∈ (rlRun rateMax rateWindowMs key store ts).2, o.dec.allowed = false →
        o.now ≤ o.tag ∧ o.dec.retryAfter = (o.tag - o.now + 999) / 1000 ∧
          (o.now < o.tag → 0 < o.dec.retryAfter) := by
  intro ts
  induction ts with
  | nil => intro store o ho; simp [rlRun] at ho
  | cons t ts ih =>
    intro store o ho hfalse
    simp only [rlRun, List.mem_cons] at ho
    rcases ho with ho | ho
    · subst ho
      cases he : lookupA store key with
      | none =>
        exfalso
        simp [RateLimiter.isAllowed, rlTag, he] at hfalse
      | some e =>
        by_cases hro : t > e.resetAt
        · exfalso
          simp [RateLimiter.isAllowed, rlTag, he, hro] at hfalse
        · by_cases hcnt : e.count ≥ rateMax
          · have hdec : (RateLimiter.isAllowed rateMax rateWindowMs store key t).2 =
                ⟨false, 0, (e.resetAt - t + 999) / 1000⟩ := by
              simp [RateLimiter.isAllowed, he, hro, hcnt]
            have htag : rlTag rateWindowMs store key t = e.resetAt := by
              simp [rlTag, he, hro]
            refine ⟨?_, ?_, ?_⟩
            · show t ≤ rlTag rateWindowMs store key t
              rw [htag]; omega
            · show (RateLimiter.isAllowed rateMax rateWindowMs store key t).2.retryAfter =
                (rlTag rateWindowMs store key t - t + 999) / 1000
              rw [hdec, htag]
            · intro hlt
              have hlt'' : t < rlTag rateWindowMs store key t := hlt
              rw [htag] at hlt''
              show 0 < (RateLimiter.isAllowed rateMax rateWindowMs store key t).2.retryAfter
              rw [hdec]
              show 0 < (e.resetAt - t + 999) / 1000
              omega
          · exfalso
            simp [RateLimiter.isAllowed, rlTag, he, hro, hcnt] at hfalse
    · exact ih _ o ho hfalse

/-- C7 counterexample input: `RATE_MAX = 2`, `RATE_LIMIT_WINDOW_MS = 10`,
requests at times 0, 9, 10, 11, 11. -/
def c7trace : List RLObs := (rlRun 2 10 "k" [] [0, 9, 10, 11, 11]).2

/-- Counterexample to claim C7 as stated, at the concrete trace `c7trace`:
the allowed requests at times 9, 11, 11 all fall inside the rolling window
[2, 12) of the configured length 10, exceeding `max = 2`; and the rejected
request at time 10 (exactly the reset deadline, still in-window since the
rollover test is `now > resetAt`) receives `retryAfter = ceil(0/1000) = 0`,
not a strictly positive hint. -/
theorem c7_counterexample :
    ¬ rollingWindowBound 2 10 c7trace ∧ ¬ rejectionsPositive c7trace := by
  constructor
  · intro h
    have h2 := h 2
    revert h2
    decide
  · intro h
    have hmem : (⟨10, 10, ⟨false, 0, 0⟩⟩ : RLObs) ∈ c7trace := by decide
    have := h _ hmem (by decide)
    simp at this

/-- C7 amended: the fixed-window limiter allows at most `max` requests per
window instance (a window being identified by its reset deadline), the
`(max+1)`-th in-window request is rejected with
`retryAfter = ceil((resetAt - now)/1000) ≥ 0`, and that hint is strictly
positive whenever the request arrives strictly before the reset deadline
(it is 0 only at the exact deadline millisecond). -/
theorem c7_amended (rateMax rateWindowMs : Nat) (key : String) (hmax : 1 ≤ rateMax) :
    (∀ ts r, cntAllowed (rlRun rateMax rateWindowMs key [] ts).2 r ≤ rateMax) ∧
    (∀ ts, ∀ o ∈ (rlRun rateMax rateWindowMs key [] ts).2, o.dec.allowed = false →
      o.now ≤ o.tag ∧ o.dec.retryAfter = (o.tag - o.now + 999) / 1000 ∧
        (o.now < o.tag → 0 < o.dec.retryAfter)) ∧
    (∀ store entry now, lookupA store key = some entry → now ≤ entry.resetAt →
      rateMax ≤ entry.count →
      (RateLimiter.isAllowed rateMax rateWindowMs store key now).2 =
        ⟨false, 0, (entry.resetAt - now + 999) / 1000⟩) := by
  refine ⟨?_, ?_, ?_⟩
  · intro ts r
    have := rlRun_window_bound rateMax rateWindowMs key hmax ts []
      (by intro e he; simp [lookupA] at he) r
    simpa [rlBound, lookupA] using this
  · intro ts o ho hfalse
    exact rlRun_rejection_shape rateMax rateWindowMs key ts [] o ho hfalse
  · intro store entry now he hwin hcnt
    have hro : ¬ (now > entry.resetAt) := by omega
    simp [RateLimiter.isAllowed, he, hro, hcnt]

/-- Closed witness for `c7_amended` at a concrete instance. -/
theorem c7_amended_witness :
    cntAllowed (rlRun 2 10 "k" [] [0, 9, 10, 11, 11]).2 10 ≤ 2 :=
  (c7_amended 2 10 "k" (by decide)).1 [0, 9, 10, 11, 11] 10

/-! ## HMAC verification (`verifyHmac`, server.ts lines 383-403)

The cryptographic primitives are abstracted: `sha256Hex` is the hex digest
of the raw body and `hmacHex` is `crypto.createHmac('sha256', secret)
.update(payload).digest('hex')`.  What is modelled exactly is everything
the routine does around them: header presence checks, `Number()` parsing
and the skew test, payload construction, `0x` stripping, Node hex decoding
of both buffers (`Buffer.from(s, 'hex')` is case-insensitive and stops at
the first invalid pair), and `crypto.timingSafeEqual`, which throws a
`RangeError` when the two buffers differ in length. -/

def hexDigitVal (c : Char) : Option Nat :=
  if '0' ≤ c ∧ c ≤ '9' then some (c.toNat - '0'.toNat)
  else if 'a' ≤ c ∧ c ≤ 'f' then some (c.toNat - 'a'.toNat + 10)
  else if 'A' ≤ c ∧ c ≤ 'F' then some (c.toNat - 'A'.toNat + 10)
  else none

/-- Node `Buffer.from(s, 'hex')`: decode pairs of hex digits, stopping
silently at the first invalid or incomplete pair. -/
def nodeHexDecode : List Char → List Nat
  | c1 :: c2 :: rest =>
    match hexDigitVal c1, hexDigitVal c2 with
    | some hi, some lo => (hi * 16 + lo) :: nodeHexDecode rest
    | _, _ => []
  | _ => []

/-- Strip a leading `0x` from a signature, as `sig.startsWith('0x') ?
sig.slice(2) : sig`. -/
def strip0x : List Char → List Char
  | '0' :: 'x' :: rest => rest
  | other => other

/-- Configuration and abstracted primitives used by `verifyHmac`. -/
structure HmacCfg where
  hmacSecret : String
  maxSkew : Int
  jsNumber : String → Option Int
  sha256Hex : List Nat → String
  hmacHex : String → String → String

/-- Outcome of `verifyHmac`: `ok`, an error object `{ ok: false, error }`,
or a thrown exception (possible via `crypto.timingSafeEqual`). -/
inductive VerifyOut where
  | ok
  | fail (msg : String)
  | raiseE (msg : String)
deriving DecidableEq, Repr

/-- Message of the `RangeError` thrown by `crypto.timingSafeEqual` on
buffers of unequal byte length. -/
def tseMessage : String := "Input buffers must have the same byte length"

/-- The signing payload `v1:<timestamp>:<nonce>:<sha256-hex-of-raw-body>`. -/
def hmacPayload (cfg : HmacCfg) (ts : Int) (nonce : String) (body : List Nat) : String :=
  "v1:" ++ toString ts ++ ":" ++ nonce ++ ":" ++ cfg.sha256Hex body

/-- Embedding of `verifyHmac`.  Header values arrive trimmed, with the empty
string standing for a missing header; `raw` is the captured raw body. -/
def verifyHmac (cfg : HmacCfg) (nowSec : Int) (tsStr nonce sig : String)
    (raw : Option (List Nat)) : VerifyOut :=
  if cfg.hmacSecret = "" then .fail "HMAC secret not configured"
  else if tsStr = "" ∨ nonce = "" ∨ sig = "" then .fail "Missing HMAC headers"
  else
    match cfg.jsNumber tsStr with
    | none => .fail "Invalid timestamp"
    | some ts =>
      if ((nowSec - ts).natAbs : Int) > cfg.maxSkew then .fail "Stale timestamp"
      else
        match raw with
        | none => .fail "Missing raw body"
        | some body =>
          let expected := nodeHexDecode (cfg.hmacHex cfg.hmacSecret
            (hmacPayload cfg ts nonce body)).data
          let sigBytes := nodeHexDecode (strip0x sig.data)
          if expected.length ≠ sigBytes.length then .raiseE tseMessage
          else if expected = sigBytes then .ok
          else .fail "Bad signature"

/-- Claim C4 as stated: acceptance iff the three headers are present, the
timestamp is finite and within the skew, and the supplied signature string
(modulo the optional `0x` prefix the code strips) equals the hex HMAC
digest of the payload. -/
def c4Stated (cfg : HmacCfg) (nowSec : Int) (tsStr nonce sig : String)
    (raw : Option (List Nat)) : Prop :=
  verifyHmac cfg nowSec tsStr nonce sig raw = .ok ↔
    (tsStr ≠ "" ∧ nonce ≠ "" ∧ sig ≠ "" ∧
      ∃ ts body, cfg.jsNumber tsStr = some ts ∧
        ((nowSec - ts).natAbs : Int) ≤ cfg.maxSkew ∧ raw = some body ∧
        (sig = cfg.hmacHex cfg.hmacSecret (hmacPayload cfg ts nonce body) ∨
         sig = "0x" ++ cfg.hmacHex cfg.hmacSecret (hmacPayload cfg ts nonce body)))

/-- Concrete instantiation of the abstract primitives used to refute C4. -/
def hmacCfg0 : HmacCfg where
  hmacSecret := "s"
  maxSkew := 60
  jsNumber := fun s => if s = "0" then some 0 else none
  sha256Hex := fun _ => "aa"
  hmacHex := fun _ _ => "00"

/-- Counterexample to claim C4 as stated: with digest `00`, the signature
string `00zz` is accepted, because Node hex decoding silently truncates at
the first non-hex character, so both buffers decode to the single byte 0;
yet `00zz` is not the hex digest, with or without a `0x` prefix.  The
acceptance predicate is therefore strictly wider than string equality with
the HMAC digest. -/
theorem c4_counterexample :
    verifyHmac hmacCfg0 0 "0" "n" "00zz" (some []) = .ok ∧
    ¬ c4Stated hmacCfg0 0 "0" "n" "00zz" (some []) := by
  constructor
  · decide
  · intro h
    have h2 := h.mp (by decide)
    rcases h2 with ⟨_, _, _, ts, body, hts, _, hbody, hsig⟩
    have h0 : hmacCfg0.jsNumber "0" = some (0 : Int) := by decide
    rw [h0] at hts
    injection hts with hts'
    subst hts'
    injection hbody with hbody'
    subst hbody'
    revert hsig
    decide

/-- C4 amended: `verifyHmac` accepts iff the secret is configured, the three
headers are present, the timestamp is finite and within the configured skew,
the raw body was captured, and the `0x`-stripped signature decodes (under
Node's tolerant, case-insensitive hex decoder) to exactly the byte sequence
of the recomputed HMAC digest.  Tampering with body, timestamp or nonce is
rejected exactly when it changes the decoded digest bytes. -/
theorem c4_amended (cfg : HmacCfg) (nowSec : Int) (tsStr nonce sig : String)
    (raw : Option (List Nat)) :
    verifyHmac cfg nowSec tsStr nonce sig raw = .ok ↔
      (cfg.hmacSecret ≠ "" ∧ tsStr ≠ "" ∧ nonce ≠ "" ∧ sig ≠ "" ∧
        ∃ ts body, cfg.jsNumber tsStr = some ts ∧
          ((nowSec - ts).natAbs : Int) ≤ cfg.maxSkew ∧ raw = some body ∧
          nodeHexDecode (strip0x sig.data) =
            nodeHexDecode (cfg.hmacHex cfg.hmacSecret
              (hmacPayload cfg ts nonce body)).data) := by
  unfold verifyHmac
  by_cases h1 : cfg.hmacSecret = ""
  · simp [h1]
  · rw [if_neg h1]
    by_cases h2 : tsStr = "" ∨ nonce = "" ∨ sig = ""
    · rcases h2 with h2 | h2 | h2 <;> simp [h2, h1]
    · push_neg at h2
      obtain ⟨h2a, h2b, h2c⟩ := h2
      rw [if_neg (by tauto)]
      cases hts : cfg.jsNumber tsStr with
      | none => simp [h1, h2a, h2b, h2c, hts]
      | some ts =>
        dsimp only
        by_cases hskew : ((nowSec - ts).natAbs : Int) > cfg.maxSkew
        · rw [if_pos hskew]
          constructor
          · intro hh; exact absurd hh (by simp)
          · rintro ⟨_, _, _, _, ts', body, hts', hsk', _, _⟩
            injection hts' with h
            subst h
            exact absurd hsk' (not_le.mpr hskew)
        · rw [if_neg hskew]
          cases hraw : raw with
          | none =>
            constructor
            · intro hh; exact absurd hh (by simp)
            · rintro ⟨_, _, _, _, ts', body, hts', _, hbody, _⟩
              exact Option.noConfusion hbody
          | some body =>
            dsimp only
            set expected := nodeHexDecode (cfg.hmacHex cfg.hmacSecret
              (hmacPayload cfg ts nonce body)).data with hexp
            set sigBytes := nodeHexDecode (strip0x sig.data) with hsigb
            by_cases hlen : expected.length ≠ sigBytes.length
            · rw [if_pos hlen]
              constructor
              · intro hh; exact absurd hh (by simp)
              · rintro ⟨_, _, _, _, ts', body', hts', _, hbody', heq⟩
                injection hts' with h
                subst h
                injection hbody' with hb
                subst hb
                exact (hlen (by rw [heq])).elim
            · rw [if_neg hlen]
              by_cases heq : expected = sigBytes
              · rw [if_pos heq]
                simp only [true_iff]
                exact ⟨h1, h2a, h2b, h2c, ts, body, rfl, not_lt.mp hskew, rfl, heq.symm⟩
              · rw [if_neg heq]
                constructor
                · intro hh; exact absurd hh (by simp)
                · rintro ⟨_, _, _, _, ts', body', hts', _, hbody', hsigeq⟩
                  injection hts' with h
                  subst h
                  injection hbody' with hb
                  subst hb
                  exact (heq hsigeq.symm).elim

/-- Closed witness for `c4_amended`: the exact lowercase digest is accepted. -/
theorem c4_amended_witness :
    verifyHmac hmacCfg0 0 "0" "n" "0x00" (some []) = .ok :=
  (c4_amended hmacCfg0 0 "0" "n" "0x00" (some [])).mpr
    ⟨by decide, by decide, by decide, by decide, 0, [], by decide, by decide, rfl,
      by decide⟩

/-! ## Write serializer (`class AsyncQueue`, server.ts lines 320-349)

Each job settles its caller's promise with its own outcome, so a job is
modelled as the `Except` value its task produces.  Events of the cooperative
scheduler: `arrive` (an `enqueue` call pushes the wrapped job and starts the
worker if idle) and `step` (the worker finishes awaiting the current front
job, records its settlement — `try/catch` around `await job()` swallows the
rejection, which was already delivered to the caller — and moves on). -/

inductive QEvent (ε α : Type) where
  | arrive (job : Except ε α)
  | step

structure QState (ε α : Type) where
  pending : List (Except ε α)
  running : Bool
  settled : List (Except ε α)

def qInit (ε α : Type) : QState ε α := ⟨[], false, []⟩

def qStep {ε α : Type} (s : QState ε α) : QEvent ε α → QState ε α
  | .arrive j => ⟨s.pending ++ [j], true, s.settled⟩
  | .step =>
    match s.pending with
    | [] => ⟨[], false, s.settled⟩
    | j :: rest => ⟨rest, true, s.settled ++ [j]⟩

def qRun {ε α : Type} (evts : List (QEvent ε α)) : QState ε α :=
  evts.foldl qStep (qInit ε α)

/-- Jobs in arrival order. -/
def arrivals {ε α : Type} (evts : List (QEvent ε α)) : List (Except ε α) :=
  evts.foldr (fun e acc => match e with | .arrive j => j :: acc | .step => acc) []

theorem qFold_settled_append {ε α : Type} :
    ∀ (evts : List (QEvent ε α)) (s : QState ε α),
      (evts.foldl qStep s).settled ++ (evts.foldl qStep s).pending =
        s.settled ++ s.pending ++ arrivals evts := by
  intro evts
  induction evts with
  | nil => intro s; simp [arrivals]
  | cons e evts ih =>
    intro s
    rw [List.foldl_cons]
    have hrec := ih (qStep s e)
    cases e with
    | arrive j =>
      rw [hrec]
      simp [qStep, arrivals, List.append_assoc]
    | step =>
      rw [hrec]
      cases hp : s.pending with
      | nil => simp [qStep, hp, arrivals]
      | cons j rest => simp [qStep, hp, arrivals, List.append_assoc]

/-- Claim C3: the write queue settles jobs strictly in arrival (FIFO) order —
the settled outcomes are always the initial segment of the jobs in arrival
order, each paired with its own result or failure (so an earlier job's
failure never blocks or reorders later jobs) — and each scheduler event
settles at most one job. -/
theorem c3_asyncqueue_fifo {ε α : Type} (evts : List (QEvent ε α)) :
    ((qRun evts).settled ++ (qRun evts).pending = arrivals evts) ∧
    ((qRun evts).settled = (arrivals evts).take (qRun evts).settled.length) ∧
    (∀ e, (qStep (qRun evts) e).settled.length ≤ (qRun evts).settled.length + 1) := by
  have hmain : (qRun evts).settled ++ (qRun evts).pending = arrivals evts := by
    have := qFold_settled_append evts (qInit ε α)
    simpa [qRun, qInit] using this
  refine ⟨hmain, ?_, ?_⟩
  · conv_lhs => rw [← List.take_left (qRun evts).settled (qRun evts).pending]
    rw [hmain]
  · intro e
    cases e with
    | arrive j => simp [qStep]
    | step =>
      cases hp : (qRun evts).pending with
      | nil => simp [qStep, hp]
      | cons j rest => simp [qStep, hp]

/-! ## Origin allow-list (`validateOrigin`, server.ts lines 351-355)

Every endpoint calls it as `validateOrigin(req.get('origin') || '')`, so a
missing header reaches the check as the empty string. -/

def validateOrigin (allowedOrigins : List String) (origin : String) : Bool :=
  if origin = "" then true
  else if allowedOrigins.length = 0 then false
  else allowedOrigins.contains origin

/-- The value the endpoints pass: `req.get('origin') || ''`. -/
def originHeaderValue (origin : Option String) : String :=
  match origin with
  | none => ""
  | some s => s

/-- Claim C10: a request with no Origin header passes the allow-list check
for every configured allow-list, including the empty one; the list only
constrains requests that do send a (non-empty) Origin header. -/
theorem c10_no_origin_passes (allowedOrigins : List String) :
    validateOrigin allowedOrigins (originHeaderValue none) = true ∧
    validateOrigin allowedOrigins (originHeaderValue (some "")) = true := by
  constructor <;> simp [validateOrigin, originHeaderValue]

/-! ## Leaderboard aggregation (`GET /api/leaderboard`, server.ts 910-1000)

Scores and transaction counts are on-chain `uint` values (`bigint` in JS,
stringified in the payload), modelled as `Nat`.  The comparator sorts by
score descending with ties by transactions descending; `limit` is
`Number(req.query.limit || 50)` clamped by
`Number.isFinite ? min(max(1, trunc(lp)), 200) : 50`. -/

structure LBItem where
  player : String
  score : Nat
  transactions : Nat
deriving DecidableEq, Repr

/-- The sort comparator of the leaderboard endpoints as a boolean "a may
come before b" relation: score descending, ties by transactions descending. -/
def lbLE (a b : LBItem) : Bool :=
  decide (b.score < a.score) ||
    ((a.score == b.score) && decide (b.transactions ≤ a.transactions))

/-- Embedding of `Number(req.query.limit || 50)` followed by the clamp.
`none` models an absent query parameter; `jsNumberT s = none` models a
string whose `Number(...)` is not finite, and `some v` the result of
`Math.trunc` on the finite value. -/
def clampLimit (jsNumberT : String → Option Int) (q : Option String) : Nat :=
  let lp : Option Int :=
    match q with
    | none => some 50
    | some s => if s = "" then some 50 else jsNumberT s
  match lp with
  | none => 50
  | some v => (min (max 1 v) 200).toNat

/-- The items of the leaderboard payload: sorted then truncated. -/
def leaderboardItems (reads : List LBItem) (limit : Nat) : List LBItem :=
  (reads.mergeSort lbLE).take limit

theorem clampLimit_none (jsT : String → Option Int) : clampLimit jsT none = 50 := rfl

theorem clampLimit_empty (jsT : String → Option Int) : clampLimit jsT (some "") = 50 := rfl

theorem clampLimit_nonnum (jsT : String → Option Int) (s : String) (hs : s ≠ "")
    (hj : jsT s = none) : clampLimit jsT (some s) = 50 := by
  simp only [clampLimit]
  rw [if_neg hs, hj]

theorem clampLimit_num (jsT : String → Option Int) (s : String) (v : Int) (hs : s ≠ "")
    (hj : jsT s = some v) : clampLimit jsT (some s) = (min (max 1 v) 200).toNat := by
  simp only [clampLimit]
  rw [if_neg hs, hj]

theorem lbLE_trans (a b c : LBItem) (hab : lbLE a b) (hbc : lbLE b c) : lbLE a c := by
  simp only [lbLE, Bool.or_eq_true, Bool.and_eq_true, decide_eq_true_eq,
    beq_iff_eq] at hab hbc ⊢
  rcases hab with h | ⟨h1, h2⟩ <;> rcases hbc with g | ⟨g1, g2⟩
  · exact Or.inl (lt_trans g h)
  · exact Or.inl (g1 ▸ h)
  · exact Or.inl (h1.symm ▸ g)
  · exact Or.inr ⟨h1.trans g1, le_trans g2 h2⟩

theorem lbLE_total (a b : LBItem) : lbLE a b || lbLE b a := by
  simp only [lbLE, Bool.or_eq_true, Bool.and_eq_true, decide_eq_true_eq, beq_iff_eq]
  rcases Nat.lt_trichotomy a.score b.score with h | h | h
  · exact Or.inr (Or.inl h)
  · rcases Nat.le_total a.transactions b.transactions with ht | ht
    · exact Or.inr (Or.inr ⟨h.symm, ht⟩)
    · exact Or.inl (Or.inr ⟨h, ht⟩)
  · exact Or.inl (Or.inl h)

/-- Claim C9: the leaderboard payload's item list is sorted non-increasingly
by score with ties non-increasingly by transactions, its length is the
requested limit truncated against the available items, and the limit is
clamped into [1, 200] with default 50 when the parameter is absent or not a
finite number. -/
theorem c9_leaderboard_sorted (reads : List LBItem) (limit : Nat)
    (jsNumberT : String → Option Int) (q : Option String) :
    (leaderboardItems reads limit).Pairwise
      (fun a b => b.score < a.score ∨
        (a.score = b.score ∧ b.transactions ≤ a.transactions)) ∧
    (leaderboardItems reads limit).length = min limit reads.length ∧
    1 ≤ clampLimit jsNumberT q ∧ clampLimit jsNumberT q ≤ 200 ∧
    (q = none → clampLimit jsNumberT q = 50) ∧
    (∀ s, q = some s → s ≠ "" → jsNumberT s = none → clampLimit jsNumberT q = 50) := by
  refine ⟨?_, ?_, ?_, ?_, ?_, ?_⟩
  · have hsorted := List.sorted_mergeSort
      (fun a b c => lbLE_trans a b c) (fun a b => lbLE_total a b) reads
    have htake : (leaderboardItems reads limit).Pairwise (fun a b => lbLE a b = true) :=
      hsorted.sublist (List.take_sublist _ _)
    refine htake.imp ?_
    intro a b hab
    simpa only [lbLE, Bool.or_eq_true, Bool.and_eq_true, decide_eq_true_eq,
      beq_iff_eq] using hab
  · simp [leaderboardItems, List.length_take]
  · cases q with
    | none => rw [clampLimit_none]; omega
    | some s =>
      by_cases hs : s = ""
      · subst hs; rw [clampLimit_empty]; omega
      · cases hj : jsNumberT s with
        | none => rw [clampLimit_nonnum jsNumberT s hs hj]; omega
        | some v => rw [clampLimit_num jsNumberT s v hs hj]; omega
  · cases q with
    | none => rw [clampLimit_none]; omega
    | some s =>
      by_cases hs : s = ""
      · subst hs; rw [clampLimit_empty]; omega
      · cases hj : jsNumberT s with
        | none => rw [clampLimit_nonnum jsNumberT s hs hj]; omega
        | some v => rw [clampLimit_num jsNumberT s v hs hj]; omega
  · intro hq; subst hq; exact clampLimit_none jsNumberT
  · intro s hq hs hnum
    subst hq
    exact clampLimit_nonnum jsNumberT s hs hnum

/-- Closed witness for `c9_leaderboard_sorted`, discharging the default-limit
hypotheses at a concrete input. -/
theorem c9_witness :
    clampLimit (fun _ => none) none = 50 ∧ clampLimit (fun _ => none) (some "x") = 50 :=
  ⟨(c9_leaderboard_sorted [] 3 (fun _ => none) none).2.2.2.2.1 rfl,
    (c9_leaderboard_sorted [] 3 (fun _ => none) (some "x")).2.2.2.2.2 "x" rfl
      (by decide) rfl⟩

/-! ## Incremental indexer (`runIndexerOnce`, server.ts lines 260-306)

Blocks are `Nat`.  `logsOf from to` abstracts the players carried by the
`PlayerDataUpdated` logs returned by `getLogs` over `[from, to]`, and
`failsAt from to` tells whether that RPC call throws.  The loop is written
with explicit fuel (`head + 1 - from` at the call site) so that concrete
runs compute; the fuel never runs out because `from` advances by at least
one block per iteration. -/

structure IdxEnv where
  head : Nat
  chunkBlocks : Nat
  fromBlockCfg : Nat
  isAddr : String → Bool
  logsOf : Nat → Nat → List String
  failsAt : Nat → Nat → Bool

structure ChunkRec where
  fromB : Nat
  toB : Nat
  changed : Bool
  snapped : Bool
deriving DecidableEq, Repr

structure IdxState where
  cursor : Nat
  known : List String
  snaps : List Nat
deriving DecidableEq, Repr

/-- The `for (const l of logs)` body: add each valid, unknown player and
report whether the set changed. -/
def addLogPlayers (isAddr : String → Bool) (known : List String) :
    List String → List String × Bool
  | [] => (known, false)
  | p :: rest =>
    if isAddr p && !(known.contains p) then
      let r := addLogPlayers isAddr (known ++ [p]) rest
      (r.1, true)
    else addLogPlayers isAddr known rest

/-- The end block of a chunk starting at `fr`:
`from + chunkSize - 1 <= head ? from + chunkSize - 1 : head`, with
`chunkSize = max(1, LEADERBOARD_INDEX_CHUNK_BLOCKS)`. -/
def chunkTo (env : IdxEnv) (fr : Nat) : Nat :=
  min (fr + max 1 env.chunkBlocks - 1) env.head

/-- Whether the chunk `[fr, chunkTo env fr]` discovers any new player. -/
def chunkChanged (env : IdxEnv) (fr : Nat) (st : IdxState) : Bool :=
  (addLogPlayers env.isAddr st.known (env.logsOf fr (chunkTo env fr))).2

/-- State after a successful chunk: `lastProcessedBlock = to`, players added,
and a snapshot persisted only `if (changed)`. -/
def idxNext (env : IdxEnv) (fr : Nat) (st : IdxState) : IdxState :=
  ⟨chunkTo env fr,
    (addLogPlayers env.isAddr st.known (env.logsOf fr (chunkTo env fr))).1,
    if chunkChanged env fr st then st.snaps ++ [chunkTo env fr] else st.snaps⟩

/-- The `while (from <= head)` loop of `runIndexerOnce`.  Each successful
chunk sets `lastProcessedBlock = to` and persists a snapshot only `if
(changed)`; an RPC error breaks out of the loop. -/
def idxLoopF (env : IdxEnv) : Nat → Nat → IdxState → IdxState × List ChunkRec
  | 0, _, st => (st, [])
  | fuel + 1, fr, st =>
    if fr ≤ env.head then
      if env.failsAt fr (chunkTo env fr) then (st, [])
      else
        let res := idxLoopF env fuel (chunkTo env fr + 1) (idxNext env fr st)
        (res.1,
          ⟨fr, chunkTo env fr, chunkChanged env fr st, chunkChanged env fr st⟩ :: res.2)
    else (st, [])

theorem idxLoopF_gt (env : IdxEnv) (fuel fr : Nat) (st : IdxState)
    (hle : ¬ fr ≤ env.head) : idxLoopF env (fuel + 1) fr st = (st, []) := by
  simp [idxLoopF, hle]

theorem idxLoopF_fail (env : IdxEnv) (fuel fr : Nat) (st : IdxState)
    (hle : fr ≤ env.head) (hf : env.failsAt fr (chunkTo env fr) = true) :
    idxLoopF env (fuel + 1) fr st = (st, []) := by
  simp [idxLoopF, hle, hf]

theorem idxLoopF_ok (env : IdxEnv) (fuel fr : Nat) (st : IdxState)
    (hle : fr ≤ env.head) (hf : env.failsAt fr (chunkTo env fr) = false) :
    idxLoopF env (fuel + 1) fr st =
      ((idxLoopF env fuel (chunkTo env fr + 1) (idxNext env fr st)).1,
        ⟨fr, chunkTo env fr, chunkChanged env fr st, chunkChanged env fr st⟩ ::
          (idxLoopF env fuel (chunkTo env fr + 1) (idxNext env fr st)).2) := by
  simp [idxLoopF, hle, hf]

/-- The scan start: `lastProcessedBlock > 0 ? lastProcessedBlock + 1 :
(LEADERBOARD_FROM_BLOCK > 0 ? LEADERBOARD_FROM_BLOCK : 0)`. -/
def idxStart (env : IdxEnv) (st : IdxState) : Nat :=
  if st.cursor > 0 then st.cursor + 1
  else if env.fromBlockCfg > 0 then env.fromBlockCfg else 0

/-- Embedding of `runIndexerOnce`: early return when up-to-date, otherwise
the chunk loop followed by the unconditional end-of-run `saveSnapshot()`. -/
def runIndexerOnce (env : IdxEnv) (st : IdxState) : IdxState × List ChunkRec :=
  let start := idxStart env st
  if start > env.head then (st, [])
  else
    let r := idxLoopF env (env.head + 1 - start) start st
    (⟨r.1.cursor, r.1.known, r.1.snaps ++ [r.1.cursor]⟩, r.2)

/-- The chunk records tile a contiguous, gap-free range starting at `fr`. -/
def contiguousFrom : Nat → List ChunkRec → Prop
  | _, [] => True
  | fr, r :: rest => r.fromB = fr ∧ fr ≤ r.toB ∧ contiguousFrom (r.toB + 1) rest

/-- Claim C8 as stated, the per-chunk persistence half: every successfully
scanned chunk is immediately followed by a snapshot persist. -/
def perChunkPersist (env : IdxEnv) (st : IdxState) : Prop :=
  ∀ r ∈ (runIndexerOnce env st).2, r.snapped = true

/-- Indexer environment for the C8 counterexample: head 29, chunk size 10,
no logs, no RPC failures. -/
def idxEnv0 : IdxEnv :=
  ⟨29, 10, 0, fun _ => true, fun _ _ => [], fun _ _ => false⟩

/-- Start state for the C8 counterexample: persisted cursor 9. -/
def idxSt0 : IdxState := ⟨9, [], []⟩

/-- Counterexample to claim C8 as stated, on a concrete run: scanning
blocks 10..29 in two chunks that discover no new player, neither chunk is
followed by a snapshot (`if (changed) await saveSnapshot()` skips both), so
mid-run the persisted snapshot trace is still empty while the in-memory
cursor has advanced two full chunks to 29 — a crash there loses two chunks,
not at most one.  Only the end-of-run snapshot persists 29. -/
theorem c8_counterexample :
    (runIndexerOnce idxEnv0 idxSt0).2 =
      [⟨10, 19, false, false⟩, ⟨20, 29, false, false⟩] ∧
    ¬ perChunkPersist idxEnv0 idxSt0 ∧
    (idxLoopF idxEnv0 20 10 idxSt0).1.cursor = 29 ∧
    (idxLoopF idxEnv0 20 10 idxSt0).1.snaps = [] ∧
    (runIndexerOnce idxEnv0 idxSt0).1.snaps = [29] := by
  refine ⟨by decide, ?_, by decide, by decide, by decide⟩
  intro h
  have := h ⟨10, 19, false, false⟩ (by decide)
  simp at this

theorem chunkTo_ge (env : IdxEnv) (fr : Nat) (hle : fr ≤ env.head) :
    fr ≤ chunkTo env fr := by
  simp only [chunkTo]
  omega

theorem idxLoopF_nil_state (env : IdxEnv) :
    ∀ (fuel fr : Nat) (st : IdxState),
      (idxLoopF env fuel fr st).2 = [] → (idxLoopF env fuel fr st).1 = st := by
  intro fuel
  induction fuel with
  | zero => intro fr st _; rfl
  | succ fuel _ =>
    intro fr st h2
    by_cases hle : fr ≤ env.head
    · cases hf : env.failsAt fr (chunkTo env fr) with
      | true => rw [idxLoopF_fail env fuel fr st hle hf]
      | false => rw [idxLoopF_ok env fuel fr st hle hf] at h2; exact absurd h2 (by simp)
    · rw [idxLoopF_gt env fuel fr st hle]

theorem idxLoopF_cursor_last (env : IdxEnv) :
    ∀ (fuel fr : Nat) (st : IdxState) (r : ChunkRec),
      (idxLoopF env fuel fr st).2.getLast? = some r →
      (idxLoopF env fuel fr st).1.cursor = r.toB := by
  intro fuel
  induction fuel with
  | zero => intro fr st r h; exact absurd h (by simp [idxLoopF])
  | succ fuel ih =>
    intro fr st r h
    by_cases hle : fr ≤ env.head
    · cases hf : env.failsAt fr (chunkTo env fr) with
      | true =>
        rw [idxLoopF_fail env fuel fr st hle hf] at h
        exact absurd h (by simp)
      | false =>
        rw [idxLoopF_ok env fuel fr st hle hf] at h ⊢
        cases hres : (idxLoopF env fuel (chunkTo env fr + 1) (idxNext env fr st)).2 with
        | nil =>
          rw [hres] at h
          simp only [List.getLast?_singleton] at h
          cases h
          have h1 := idxLoopF_nil_state env fuel (chunkTo env fr + 1)
            (idxNext env fr st) hres
          rw [h1]
          rfl
        | cons x xs =>
          rw [hres, List.getLast?_cons_cons, ← hres] at h
          exact ih (chunkTo env fr + 1) (idxNext env fr st) r h
    · rw [idxLoopF_gt env fuel fr st hle] at h
      exact absurd h (by simp)

theorem idxLoopF_contiguous (env : IdxEnv) :
    ∀ (fuel fr : Nat) (st : IdxState),
      contiguousFrom fr (idxLoopF env fuel fr st).2 := by
  intro fuel
  induction fuel with
  | zero => intro fr st; simp [idxLoopF, contiguousFrom]
  | succ fuel ih =>
    intro fr st
    by_cases hle : fr ≤ env.head
    · cases hf : env.failsAt fr (chunkTo env fr) with
      | true => rw [idxLoopF_fail env fuel fr st hle hf]; exact trivial
      | false =>
        rw [idxLoopF_ok env fuel fr st hle hf]
        exact ⟨rfl, chunkTo_ge env fr hle, ih _ _⟩
    · rw [idxLoopF_gt env fuel fr st hle]; exact trivial

theorem idxLoopF_snapped_changed (env : IdxEnv) :
    ∀ (fuel fr : Nat) (st : IdxState),
      ∀ r ∈ (idxLoopF env fuel fr st).2, r.snapped = r.changed ∧ r.toB ≤ env.head := by
  intro fuel
  induction fuel with
  | zero => intro fr st r h; simp [idxLoopF] at h
  | succ fuel ih =>
    intro fr st r h
    by_cases hle : fr ≤ env.head
    · cases hf : env.failsAt fr (chunkTo env fr) with
      | true =>
        rw [idxLoopF_fail env fuel fr st hle hf] at h
        simp at h
      | false =>
        rw [idxLoopF_ok env fuel fr st hle hf] at h
        rcases List.mem_cons.mp h with h | h
        · subst h
          refine ⟨rfl, ?_⟩
          simp only [chunkTo]
          omega
        · exact ih _ _ r h
    · rw [idxLoopF_gt env fuel fr st hle] at h
      simp at h

theorem idxLoopF_cursor_mono (env : IdxEnv) :
    ∀ (fuel fr : Nat) (st : IdxState), st.cursor < fr →
      st.cursor ≤ (idxLoopF env fuel fr st).1.cursor := by
  intro fuel
  induction fuel with
  | zero => intro fr st _; exact le_refl _
  | succ fuel ih =>
    intro fr st hlt
    by_cases hle : fr ≤ env.head
    · cases hf : env.failsAt fr (chunkTo env fr) with
      | true => rw [idxLoopF_fail env fuel fr st hle hf]
      | false =>
        rw [idxLoopF_ok env fuel fr st hle hf]
        have hfr := chunkTo_ge env fr hle
        have hnext : (idxNext env fr st).cursor = chunkTo env fr := rfl
        have := ih (chunkTo env fr + 1) (idxNext env fr st) (by rw [hnext]; omega)
        rw [hnext] at this
        simp only
        omega
    · rw [idxLoopF_gt env fuel fr st hle]

/-- C8 amended: during a run the cursor only moves forward; when the
persisted cursor is positive, scanning resumes from `cursor + 1`; the chunk
records tile the scanned range contiguously (no block range is skipped);
a snapshot follows a chunk exactly when the chunk discovered a new player
(not after every chunk), with one unconditional snapshot at the end of the
run; and the final in-memory cursor equals the `to` block of the last
successfully scanned chunk, so an RPC error mid-run leaves the cursor at the
last completed chunk. -/
theorem c8_amended (env : IdxEnv) (st : IdxState) :
    (st.cursor ≤ (runIndexerOnce env st).1.cursor) ∧
    (0 < st.cursor → idxStart env st = st.cursor + 1) ∧
    contiguousFrom (idxStart env st) (runIndexerOnce env st).2 ∧
    (∀ r ∈ (runIndexerOnce env st).2, r.snapped = r.changed ∧ r.toB ≤ env.head) ∧
    (idxStart env st ≤ env.head →
      (runIndexerOnce env st).1.snaps =
        (idxLoopF env (env.head + 1 - idxStart env st) (idxStart env st) st).1.snaps ++
          [(runIndexerOnce env st).1.cursor]) ∧
    (∀ r, (runIndexerOnce env st).2.getLast? = some r →
      (runIndexerOnce env st).1.cursor = r.toB) := by
  have hstart : 0 < st.cursor → idxStart env st = st.cursor + 1 := by
    intro h
    simp [idxStart, h]
  by_cases hgt : idxStart env st > env.head
  · have hrun : runIndexerOnce env st = (st, []) := by
      simp [runIndexerOnce, hgt]
    refine ⟨by rw [hrun], hstart, by rw [hrun]; exact trivial, ?_, ?_, ?_⟩
    · intro r hr; rw [hrun] at hr; simp at hr
    · intro hle; omega
    · intro r hr; rw [hrun] at hr; simp at hr
  · have hrun : runIndexerOnce env st =
        (⟨(idxLoopF env (env.head + 1 - idxStart env st) (idxStart env st) st).1.cursor,
          (idxLoopF env (env.head + 1 - idxStart env st) (idxStart env st) st).1.known,
          (idxLoopF env (env.head + 1 - idxStart env st) (idxStart env st) st).1.snaps ++
            [(idxLoopF env (env.head + 1 - idxStart env st) (idxStart env st) st).1.cursor]⟩,
         (idxLoopF env (env.head + 1 - idxStart env st) (idxStart env st) st).2) := by
      simp [runIndexerOnce, hgt]
    refine ⟨?_, hstart, ?_, ?_, ?_, ?_⟩
    · rw [hrun]
      rcases Nat.eq_zero_or_pos st.cursor with h0 | h0
      · rw [h0]; exact Nat.zero_le _
      · have := idxLoopF_cursor_mono env (env.head + 1 - idxStart env st)
          (idxStart env st) st (by rw [hstart h0]; omega)
        exact this
    · rw [hrun]
      exact idxLoopF_contiguous env _ _ _
    · rw [hrun]
      exact idxLoopF_snapped_changed env _ _ _
    · intro _
      rw [hrun]
    · intro r hr
      rw [hrun] at hr ⊢
      exact idxLoopF_cursor_last env _ _ _ r hr

/-- Closed witness for `c8_amended` at the concrete counterexample run. -/
theorem c8_amended_witness : idxStart idxEnv0 idxSt0 = 10 :=
  (c8_amended idxEnv0 idxSt0).2.1 (by decide)

/-! ## The mutating endpoints (`POST /api/submit-hand-batch`, server.ts
537-711, and `POST /api/update-player-data`, 714-810)

Both handlers run, in order: enable-flag, origin, server API key, HMAC,
rate limit, idempotency check/reserve, config checks, body validation, the
serialized ledger write, cache updates, and the `done` record — with one
`try/catch` around everything, whose handler classifies the error message
into an HTTP status and unconditionally stores a `done` error record under
the request's idempotency key.  The ledger itself is an oracle: a request
carries the outcome its `writeContract`/`waitForTransactionReceipt` call
would produce, and `writesIssued` counts the write attempts that reach the
queue. -/

structure WriteRes where
  txHash : String
  rcptHash : String
  blockNumber : Nat
  status : String
deriving DecidableEq, Repr

structure PlayerStat where
  player : String
  totalScore : Nat
  totalTransactions : Nat
  perGameScore : Nat
  perGameTransactions : Nat
deriving DecidableEq, Repr

structure BatchPayload where
  txHash : String
  receipt : WriteRes
  statsPlayers : List PlayerStat
deriving DecidableEq, Repr

structure UpdatePayload where
  txHash : String
  receipt : WriteRes
deriving DecidableEq, Repr

inductive Stored where
  | batchP (p : BatchPayload)
  | updateP (p : UpdatePayload)
deriving DecidableEq, Repr

structure ErrWrap where
  code : Nat
  message : String
deriving DecidableEq, Repr

/-- A `dedupCache` entry: `{ status: 'processing' | 'done', result?, error?, ts }`. -/
structure CacheEntry where
  processing : Bool
  result : Option Stored
  error : Option ErrWrap
  ts : Nat
deriving DecidableEq, Repr

inductive RespBody where
  | stored (s : Stored)
  | storedErr (e : ErrWrap)
  | errMsg (msg : String)
  | okTrue
  | noJson
deriving DecidableEq, Repr

structure Resp where
  status : Nat
  body : RespBody
deriving DecidableEq, Repr

structure RecentHand where
  handId : String
  tableId : String
  deckHash : String
  requestId : String
  players : List String
  winners : List Bool
  timestamp : Nat
deriving DecidableEq, Repr

/-- The gateway's mutable in-memory state. -/
structure Gateway where
  dedup : List (String × CacheEntry)
  rl : List (String × RLEntry)
  writesIssued : Nat
  localTotals : List (String × Nat × Nat)
  recent : List RecentHand
  known : List String
deriving DecidableEq, Repr

structure GwCfg where
  enableBatch : Bool
  enableUpdate : Bool
  allowedOrigins : List String
  apiSecret : String
  clientApiSecret : String
  hmac : HmacCfg
  rateMax : Nat
  rateWindowMs : Nat
  recentHandsSize : Nat
  walletConfigured : Bool
  gameContractValid : Bool
  leaderboardValid : Bool
  gameContractAddress : String
  isAddr : String → Bool
  jsBigInt : String → Option Int
  utf8 : String → List Nat

/-- One inbound request together with the ledger oracle for its write. -/
structure GwReq where
  origin : Option String
  xApiKey : String
  bearer : String
  xRequestId : String
  bodyRequestId : String
  tsStr : String
  nonce : String
  sig : String
  rawBody : Option (List Nat)
  ip : String
  players : Option (List String)
  winners : Option (List Bool)
  roomId : String
  handSeq : String
  handId : String
  tableId : String
  deckHash : String
  playerAddress : String
  scoreAmountV : Option String
  transactionAmountV : Option String
  writeOutcome : Except String WriteRes
  statsOf : String → Nat × Nat × Nat × Nat

/-- Server-only API key check (`validateServerApiKey`). -/
def validateServerApiKey (apiSecret key : String) : Bool :=
  if key = "" then false
  else if apiSecret = "" then false
  else key == apiSecret

/-- `(req.get('x-api-key') || '').trim() || bearer`. -/
def apiKeyOf (req : GwReq) : String :=
  if req.xApiKey ≠ "" then req.xApiKey else req.bearer

/-- The idempotency key:
`(req.get('x-request-id') || req.body?.requestId || '').toString()`. -/
def ridOf (req : GwReq) : String :=
  if req.xRequestId ≠ "" then req.xRequestId else req.bodyRequestId

/-- The rate-limit key `req.ip || 'global'`. -/
def rlKeyOf (req : GwReq) : String :=
  if req.ip = "" then "global" else req.ip

def startsWithChars : List Char → List Char → Bool
  | _, [] => true
  | [], _ :: _ => false
  | c :: cs, p :: ps => c == p && startsWithChars cs ps

def containsChars (pat : List Char) : List Char → Bool
  | [] => startsWithChars [] pat
  | c :: cs => startsWithChars (c :: cs) pat || containsChars pat cs

/-- JS `String.prototype.includes` on our strings. -/
def strContains (s pat : String) : Bool :=
  containsChars pat.data s.data

/-- Lower-casing, character by character (JS `toLowerCase` on ASCII). -/
def toLowerStr (s : String) : String :=
  ⟨s.data.map Char.toLower⟩

/-- Status classification of the batch endpoint's catch handler. -/
def classifyBatch (msg : String) : Nat :=
  let l := toLowerStr msg
  if strContains l "insufficient" && strContains l "fund" then 402
  else if strContains l "unauthorized" || strContains l "accesscontrol" then 403
  else if strContains l "invalid" || strContains l "missing" || strContains l "mismatch"
    then 400
  else 500

/-- Status classification of the update endpoint's catch handler (no
`mismatch` case). -/
def classifyUpdate (msg : String) : Nat :=
  let l := toLowerStr msg
  if strContains l "insufficient" && strContains l "fund" then 402
  else if strContains l "unauthorized" || strContains l "accesscontrol" then 403
  else if strContains l "invalid" || strContains l "missing" then 400
  else 500

/-- The catch handler shared shape: classify the message, store a `done`
error record under the request's idempotency key (if any), respond with the
classified status. -/
def catchHandler (classify : String → Nat) (req : GwReq) (now : Nat) (g : Gateway)
    (msg : String) : Resp × Gateway :=
  let code := classify msg
  let rid := ridOf req
  let g' :=
    if rid ≠ "" then
      { g with dedup := setA g.dedup rid ⟨false, none, some ⟨code, msg⟩, now⟩ }
    else g
  (⟨code, .errMsg msg⟩, g')

/-- `existing.result || existing.error || { ok: true }` (batch replay). -/
def doneBodyBatch (e : CacheEntry) : RespBody :=
  match e.result with
  | some s => .stored s
  | none =>
    match e.error with
    | some er => .storedErr er
    | none => .okTrue

/-- `existing.result` (update replay; `undefined` when the stored outcome
was an error). -/
def doneBodyUpdate (e : CacheEntry) : RespBody :=
  match e.result with
  | some s => .stored s
  | none => .noJson

/-- The `/^0x[0-9a-fA-F]{64}$/` test. -/
def isBytes32 (v : String) : Bool :=
  match v.data with
  | '0' :: 'x' :: rest => rest.length == 64 && rest.all (fun c => (hexDigitVal c).isSome)
  | _ => false

/-- `0x` + sha256 hex of the utf8 bytes of `s`. -/
def toBytes32FromString (cfg : GwCfg) (s : String) : String :=
  "0x" ++ cfg.hmac.sha256Hex (cfg.utf8 s)

/-- Embedding of `parseAmount`: missing field, unparseable value, and the
negative case (whose own throw is caught and replaced by `Invalid <field>`). -/
def parseAmount (jsBigInt : String → Option Int) (value : Option String)
    (field : String) : Except String Int :=
  match value with
  | none => .error ("Missing required field: " ++ field)
  | some s =>
    match jsBigInt s with
    | none => .error ("Invalid " ++ field)
    | some n => if n < 0 then .error ("Invalid " ++ field) else .ok n

/-- `addKnownPlayers`: add each well-formed, unknown address. -/
def addKnownPlayers (isAddr : String → Bool) (known : List String) :
    List String → List String
  | [] => known
  | a :: rest =>
    if isAddr a && !(known.contains a) then addKnownPlayers isAddr (known ++ [a]) rest
    else addKnownPlayers isAddr known rest

/-- `bumpLocalTotals`: per player, +1 transaction and +1 score if a winner. -/
def bumpLocalTotals (isAddr : String → Bool)
    (totals : List (String × Nat × Nat)) :
    List (String × Bool) → List (String × Nat × Nat)
  | [] => totals
  | (p, w) :: rest =>
    if isAddr p then
      let e := (lookupA totals p).getD (0, 0)
      bumpLocalTotals isAddr
        (setA totals p (e.1 + (if w then 1 else 0), e.2 + 1)) rest
    else bumpLocalTotals isAddr totals rest

/-- `appendRecentHand`: push, then keep the last `RECENT_HANDS_SIZE`. -/
def appendRecentHand (size : Nat) (recent : List RecentHand) (h : RecentHand) :
    List RecentHand :=
  let r := recent ++ [h]
  if r.length > size then r.drop (r.length - size) else r

/-- Outcome of the synchronous front part of a mutating handler: an early
response, or a go-ahead past the idempotency reserve. -/
inductive BeginOut where
  | early (resp : Resp) (g : Gateway)
  | proceed (g : Gateway) (rid : String)

/-- The front of `POST /api/submit-hand-batch`: enable flag, origin, server
API key, HMAC, rate limit, and the dedup check/reserve, in source order. -/
def beginBatch (cfg : GwCfg) (now : Nat) (g : Gateway) (req : GwReq) : BeginOut :=
  if ¬cfg.enableBatch then .early ⟨404, .errMsg "Endpoint disabled"⟩ g
  else if ¬validateOrigin cfg.allowedOrigins (originHeaderValue req.origin) then
    .early ⟨403, .errMsg "Invalid origin"⟩ g
  else if ¬validateServerApiKey cfg.apiSecret (apiKeyOf req) then
    .early ⟨401, .errMsg "Unauthorized"⟩ g
  else
    match verifyHmac cfg.hmac ((now / 1000 : Nat) : Int) req.tsStr req.nonce req.sig
      req.rawBody with
    | .fail e => .early ⟨401, .errMsg ("HMAC: " ++ e)⟩ g
    | .raiseE m =>
      let p := catchHandler classifyBatch req now g m
      .early p.1 p.2
    | .ok =>
      let pr := RateLimiter.isAllowed cfg.rateMax cfg.rateWindowMs g.rl (rlKeyOf req) now
      let g1 := { g with rl := pr.1 }
      if ¬pr.2.allowed then .early ⟨429, .errMsg "Too many requests"⟩ g1
      else
        let rid := ridOf req
        if rid ≠ "" then
          match lookupA g1.dedup rid with
          | some existing =>
            if existing.processing then
              .early ⟨409, .errMsg "Duplicate request in progress"⟩ g1
            else .early ⟨200, doneBodyBatch existing⟩ g1
          | none =>
            .proceed { g1 with dedup := setA g1.dedup rid ⟨true, none, none, now⟩ } rid
        else .proceed g1 ""

/-- The rest of `POST /api/submit-hand-batch`: config checks, body
validation, ID normalization, the queued ledger write, best-effort cache
updates, post-write stat reads, and the `done` record. -/
def handleBatch (cfg : GwCfg) (now : Nat) (g : Gateway) (req : GwReq) :
    Resp × Gateway :=
  match beginBatch cfg now g req with
  | .early r g' => (r, g')
  | .proceed g1 rid =>
    if ¬cfg.walletConfigured then
      catchHandler classifyBatch req now g1 "Backend wallet not configured"
    else if ¬cfg.gameContractValid then
      catchHandler classifyBatch req now g1 "Invalid game contract address"
    else
      let playersArr := req.players.getD []
      let winnersArr := req.winners.getD []
      if playersArr.isEmpty then catchHandler classifyBatch req now g1 "Missing players"
      else if playersArr.length ≠ winnersArr.length then
        catchHandler classifyBatch req now g1 "players/winners length mismatch"
      else
        match playersArr.findIdx? (fun p => !cfg.isAddr p) with
        | some i =>
          catchHandler classifyBatch req now g1
            ("Invalid player address at index " ++ toString i)
        | none =>
          let handId := if isBytes32 req.handId then req.handId
            else toBytes32FromString cfg ("hand:" ++ req.roomId ++ ":" ++ req.handSeq)
          let tableId := if isBytes32 req.tableId then req.tableId
            else toBytes32FromString cfg ("table:" ++ req.roomId)
          let deckHash := if isBytes32 req.deckHash then req.deckHash
            else toBytes32FromString cfg ("deck:" ++ req.roomId ++ ":" ++ req.handSeq)
          let requestId := if isBytes32 req.bodyRequestId then req.bodyRequestId
            else toBytes32FromString cfg
              ("req:" ++ cfg.gameContractAddress ++ ":" ++ req.roomId ++ ":" ++ req.handSeq)
          let g2 := { g1 with writesIssued := g1.writesIssued + 1 }
          match req.writeOutcome with
          | .error m => catchHandler classifyBatch req now g2 m
          | .ok w =>
            let known' := addKnownPlayers cfg.isAddr g2.known playersArr
            let totals' := bumpLocalTotals cfg.isAddr g2.localTotals
              (playersArr.zip winnersArr)
            let recent' := appendRecentHand cfg.recentHandsSize g2.recent
              ⟨handId, tableId, deckHash, requestId, playersArr, winnersArr, now / 1000⟩
            let stats := playersArr.map (fun p =>
              let q := req.statsOf p
              PlayerStat.mk p q.1 q.2.1 q.2.2.1 q.2.2.2)
            let payload : BatchPayload := ⟨w.txHash, w, stats⟩
            let g3 := { g2 with known := known', localTotals := totals', recent := recent' }
            let entry : CacheEntry := ⟨false, some (.batchP payload), none, now⟩
            let g4 := if rid ≠ "" then { g3 with dedup := setA g3.dedup rid entry } else g3
            (⟨200, .stored (.batchP payload)⟩, g4)

/-- The front of `POST /api/update-player-data`, identical in structure to
`beginBatch` but gated by `ENABLE_UPDATE_ENDPOINT` and replaying
`existing.result` verbatim on a done record. -/
def beginUpdate (cfg : GwCfg) (now : Nat) (g : Gateway) (req : GwReq) : BeginOut :=
  if ¬cfg.enableUpdate then .early ⟨404, .errMsg "Endpoint disabled"⟩ g
  else if ¬validateOrigin cfg.allowedOrigins (originHeaderValue req.origin) then
    .early ⟨403, .errMsg "Invalid origin"⟩ g
  else if ¬validateServerApiKey cfg.apiSecret (apiKeyOf req) then
    .early ⟨401, .errMsg "Unauthorized"⟩ g
  else
    match verifyHmac cfg.hmac ((now / 1000 : Nat) : Int) req.tsStr req.nonce req.sig
      req.rawBody with
    | .fail e => .early ⟨401, .errMsg ("HMAC: " ++ e)⟩ g
    | .raiseE m =>
      let p := catchHandler classifyUpdate req now g m
      .early p.1 p.2
    | .ok =>
      let pr := RateLimiter.isAllowed cfg.rateMax cfg.rateWindowMs g.rl (rlKeyOf req) now
      let g1 := { g with rl := pr.1 }
      if ¬pr.2.allowed then .early ⟨429, .errMsg "Too many requests"⟩ g1
      else
        let rid := ridOf req
        if rid ≠ "" then
          match lookupA g1.dedup rid with
          | some existing =>
            if existing.processing then
              .early ⟨409, .errMsg "Duplicate request in progress"⟩ g1
            else .early ⟨200, doneBodyUpdate existing⟩ g1
          | none =>
            .proceed { g1 with dedup := setA g1.dedup rid ⟨true, none, none, now⟩ } rid
        else .proceed g1 ""

/-- The rest of `POST /api/update-player-data`. -/
def handleUpdate (cfg : GwCfg) (now : Nat) (g : Gateway) (req : GwReq) :
    Resp × Gateway :=
  match beginUpdate cfg now g req with
  | .early r g' => (r, g')
  | .proceed g1 rid =>
    if ¬cfg.walletConfigured then
      catchHandler classifyUpdate req now g1 "Backend wallet not configured"
    else if ¬cfg.leaderboardValid then
      catchHandler classifyUpdate req now g1 "Invalid leaderboard address"
    else if ¬cfg.isAddr req.playerAddress then
      catchHandler classifyUpdate req now g1 "Invalid player address"
    else
      match parseAmount cfg.jsBigInt req.scoreAmountV "scoreAmount" with
      | .error m => catchHandler classifyUpdate req now g1 m
      | .ok _ =>
        match parseAmount cfg.jsBigInt req.transactionAmountV "transactionAmount" with
        | .error m => catchHandler classifyUpdate req now g1 m
        | .ok _ =>
          let g2 := { g1 with writesIssued := g1.writesIssued + 1 }
          match req.writeOutcome with
          | .error m => catchHandler classifyUpdate req now g2 m
          | .ok w =>
            let payload : UpdatePayload := ⟨w.txHash, w⟩
            let entry : CacheEntry := ⟨false, some (.updateP payload), none, now⟩
            let g3 := if rid ≠ "" then { g2 with dedup := setA g2.dedup rid entry } else g2
            (⟨200, .stored (.updateP payload)⟩, g3)

/-- All the pre-idempotency gates of the batch endpoint pass for `req` at
state `g`: endpoint enabled, origin accepted, server API key valid, HMAC
verification succeeds, rate limiter allows. -/
def gatesOpenBatch (cfg : GwCfg) (now : Nat) (g : Gateway) (req : GwReq) : Bool :=
  cfg.enableBatch &&
  validateOrigin cfg.allowedOrigins (originHeaderValue req.origin) &&
  validateServerApiKey cfg.apiSecret (apiKeyOf req) &&
  decide (verifyHmac cfg.hmac ((now / 1000 : Nat) : Int) req.tsStr req.nonce req.sig
    req.rawBody = .ok) &&
  (RateLimiter.isAllowed cfg.rateMax cfg.rateWindowMs g.rl (rlKeyOf req) now).2.allowed

/-- Same for the update endpoint. -/
def gatesOpenUpdate (cfg : GwCfg) (now : Nat) (g : Gateway) (req : GwReq) : Bool :=
  cfg.enableUpdate &&
  validateOrigin cfg.allowedOrigins (originHeaderValue req.origin) &&
  validateServerApiKey cfg.apiSecret (apiKeyOf req) &&
  decide (verifyHmac cfg.hmac ((now / 1000 : Nat) : Int) req.tsStr req.nonce req.sig
    req.rawBody = .ok) &&
  (RateLimiter.isAllowed cfg.rateMax cfg.rateWindowMs g.rl (rlKeyOf req) now).2.allowed

def stateOf : BeginOut → Gateway
  | .early _ g => g
  | .proceed g _ => g

def isProceed : BeginOut → Bool
  | .proceed _ _ => true
  | .early _ _ => false

def isConflict409 : BeginOut → Bool
  | .early r _ => r.status == 409
  | .proceed _ _ => false

/-- A burst of requests hitting the batch endpoint's front half while no
completion has happened yet (the first write is still in flight). -/
def beginFoldBatch (cfg : GwCfg) (now : Nat) (g : Gateway) :
    List GwReq → Gateway × List BeginOut
  | [] => (g, [])
  | r :: rs =>
    let o := beginBatch cfg now g r
    let t := beginFoldBatch cfg now (stateOf o) rs
    (t.1, o :: t.2)

/-- The gates pass for every request of the burst, at the state it meets. -/
def gatesAllBatch (cfg : GwCfg) (now : Nat) : Gateway → List GwReq → Bool
  | _, [] => true
  | g, r :: rs =>
    gatesOpenBatch cfg now g r &&
      gatesAllBatch cfg now (stateOf (beginBatch cfg now g r)) rs

theorem beginBatch_processing (cfg : GwCfg) (now : Nat) (g : Gateway) (req : GwReq)
    (e : CacheEntry) (hg : gatesOpenBatch cfg now g req = true)
    (hrid : ridOf req ≠ "") (hl : lookupA g.dedup (ridOf req) = some e)
    (hp : e.processing = true) :
    beginBatch cfg now g req =
      .early ⟨409, .errMsg "Duplicate request in progress"⟩
        { g with rl := (RateLimiter.isAllowed cfg.rateMax cfg.rateWindowMs g.rl
            (rlKeyOf req) now).1 } := by
  simp only [gatesOpenBatch, Bool.and_eq_true, decide_eq_true_eq] at hg
  obtain ⟨⟨⟨⟨h1, h2⟩, h3⟩, h4⟩, h5⟩ := hg
  simp only [beginBatch, h1, h2, h3, h4, h5, hrid, hl, hp, not_true,
    ite_true, ite_false, if_true, if_false]
  simp [hrid]

theorem beginBatch_fresh (cfg : GwCfg) (now : Nat) (g : Gateway) (req : GwReq)
    (hg : gatesOpenBatch cfg now g req = true)
    (hrid : ridOf req ≠ "") (hl : lookupA g.dedup (ridOf req) = none) :
    beginBatch cfg now g req =
      .proceed
        ⟨setA g.dedup (ridOf req) ⟨true, none, none, now⟩,
          (RateLimiter.isAllowed cfg.rateMax cfg.rateWindowMs g.rl (rlKeyOf req) now).1,
          g.writesIssued, g.localTotals, g.recent, g.known⟩
        (ridOf req) := by
  simp only [gatesOpenBatch, Bool.and_eq_true, decide_eq_true_eq] at hg
  obtain ⟨⟨⟨⟨h1, h2⟩, h3⟩, h4⟩, h5⟩ := hg
  simp only [beginBatch, h1, h2, h3, h4, h5, hrid, hl, not_true,
    ite_true, ite_false, if_true, if_false]
  simp [hrid]

theorem beginUpdate_processing (cfg : GwCfg) (now : Nat) (g : Gateway) (req : GwReq)
    (e : CacheEntry) (hg : gatesOpenUpdate cfg now g req = true)
    (hrid : ridOf req ≠ "") (hl : lookupA g.dedup (ridOf req) = some e)
    (hp : e.processing = true) :
    beginUpdate cfg now g req =
      .early ⟨409, .errMsg "Duplicate request in progress"⟩
        { g with rl := (RateLimiter.isAllowed cfg.rateMax cfg.rateWindowMs g.rl
            (rlKeyOf req) now).1 } := by
  simp only [gatesOpenUpdate, Bool.and_eq_true, decide_eq_true_eq] at hg
  obtain ⟨⟨⟨⟨h1, h2⟩, h3⟩, h4⟩, h5⟩ := hg
  simp only [beginUpdate, h1, h2, h3, h4, h5, hrid, hl, hp, not_true,
    ite_true, ite_false, if_true, if_false]
  simp [hrid]

theorem beginBatch_done (cfg : GwCfg) (now : Nat) (g : Gateway) (req : GwReq)
    (e : CacheEntry) (hg : gatesOpenBatch cfg now g req = true)
    (hrid : ridOf req ≠ "") (hl : lookupA g.dedup (ridOf req) = some e)
    (hp : e.processing = false) :
    beginBatch cfg now g req =
      .early ⟨200, doneBodyBatch e⟩
        { g with rl := (RateLimiter.isAllowed cfg.rateMax cfg.rateWindowMs g.rl
            (rlKeyOf req) now).1 } := by
  simp only [gatesOpenBatch, Bool.and_eq_true, decide_eq_true_eq] at hg
  obtain ⟨⟨⟨⟨h1, h2⟩, h3⟩, h4⟩, h5⟩ := hg
  simp only [beginBatch, h1, h2, h3, h4, h5, hrid, hl, hp, not_true,
    ite_true, ite_false, if_true, if_false]
  simp [hrid]

theorem beginUpdate_done (cfg : GwCfg) (now : Nat) (g : Gateway) (req : GwReq)
    (e : CacheEntry) (hg : gatesOpenUpdate cfg now g req = true)
    (hrid : ridOf req ≠ "") (hl : lookupA g.dedup (ridOf req) = some e)
    (hp : e.processing = false) :
    beginUpdate cfg now g req =
      .early ⟨200, doneBodyUpdate e⟩
        { g with rl := (RateLimiter.isAllowed cfg.rateMax cfg.rateWindowMs g.rl
            (rlKeyOf req) now).1 } := by
  simp only [gatesOpenUpdate, Bool.and_eq_true, decide_eq_true_eq] at hg
  obtain ⟨⟨⟨⟨h1, h2⟩, h3⟩, h4⟩, h5⟩ := hg
  simp only [beginUpdate, h1, h2, h3, h4, h5, hrid, hl, hp, not_true,
    ite_true, ite_false, if_true, if_false]
  simp [hrid]

/-- Claim C1: on either mutating endpoint, a request that passes the
authentication and rate-limit gates and whose idempotency key holds a
`Done` record is answered with status 200 and the stored outcome of the
original execution, and the handler returns with the dedup cache, the
write counter, and every other piece of gateway state except the rate
limiter untouched — so replaying the key any number of times yields the
same stored result and zero additional ledger writes. -/
theorem c1_done_replay :
    (∀ (cfg : GwCfg) (now : Nat) (g : Gateway) (req : GwReq) (e : CacheEntry),
      gatesOpenBatch cfg now g req = true → ridOf req ≠ "" →
      lookupA g.dedup (ridOf req) = some e → e.processing = false →
      handleBatch cfg now g req =
        (⟨200, doneBodyBatch e⟩,
          { g with rl := (RateLimiter.isAllowed cfg.rateMax cfg.rateWindowMs g.rl
              (rlKeyOf req) now).1 })) ∧
    (∀ (cfg : GwCfg) (now : Nat) (g : Gateway) (req : GwReq) (e : CacheEntry),
      gatesOpenUpdate cfg now g req = true → ridOf req ≠ "" →
      lookupA g.dedup (ridOf req) = some e → e.processing = false →
      handleUpdate cfg now g req =
        (⟨200, doneBodyUpdate e⟩,
          { g with rl := (RateLimiter.isAllowed cfg.rateMax cfg.rateWindowMs g.rl
              (rlKeyOf req) now).1 })) := by
  constructor
  · intro cfg now g req e hg hrid hl hp
    rw [handleBatch, beginBatch_done cfg now g req e hg hrid hl hp]
  · intro cfg now g req e hg hrid hl hp
    rw [handleUpdate, beginUpdate_done cfg now g req e hg hrid hl hp]

theorem beginFoldBatch_conflict (cfg : GwCfg) (now : Nat) (k : String) :
    ∀ (reqs : List GwReq) (g : Gateway) (e : CacheEntry),
      (∀ r ∈ reqs, ridOf r = k) → k ≠ "" →
      lookupA g.dedup k = some e → e.processing = true →
      gatesAllBatch cfg now g reqs = true →
      (∀ o ∈ (beginFoldBatch cfg now g reqs).2, isConflict409 o = true) ∧
      lookupA (beginFoldBatch cfg now g reqs).1.dedup k = some e ∧
      (beginFoldBatch cfg now g reqs).1.writesIssued = g.writesIssued := by
  intro reqs
  induction reqs with
  | nil =>
    intro g e _ _ hl _ _
    exact ⟨by intro o ho; simp [beginFoldBatch] at ho, hl, rfl⟩
  | cons r rs ih =>
    intro g e hk hne hl hp hginv
    have hkr : ridOf r = k := hk r (List.mem_cons_self r rs)
    simp only [gatesAllBatch, Bool.and_eq_true] at hginv
    obtain ⟨hg1, hgrest⟩ := hginv
    have hbeg := beginBatch_processing cfg now g r e hg1 (by rw [hkr]; exact hne)
      (by rw [hkr]; exact hl) hp
    have hstate : stateOf (beginBatch cfg now g r) =
        { g with rl := (RateLimiter.isAllowed cfg.rateMax cfg.rateWindowMs g.rl
            (rlKeyOf r) now).1 } := by
      rw [hbeg]; rfl
    have hrec := ih (stateOf (beginBatch cfg now g r)) e
      (fun r' hr' => hk r' (List.mem_cons_of_mem r hr'))
      hne (by rw [hstate]; exact hl) hp (by exact hgrest)
    refine ⟨?_, ?_, ?_⟩
    · intro o ho
      simp only [beginFoldBatch, List.mem_cons] at ho
      rcases ho with ho | ho
      · subst ho; rw [hbeg]; rfl
      · exact hrec.1 o ho
    · simp only [beginFoldBatch]
      exact hrec.2.1
    · simp only [beginFoldBatch]
      rw [hrec.2.2, hstate]

/-- Claim C2: while a key `k` is in `Processing` state, a gates-passing
request bearing `k` on either mutating endpoint is answered 409
("Duplicate request in progress", distinct from a validation 400), with
the dedup cache and the write counter untouched; and for a burst of
gates-passing requests all bearing a fresh key `k` arriving while the
first is still in flight, exactly the first proceeds past the idempotency
reserve, every later one is a 409 conflict, and no additional write is
issued during the burst. -/
theorem c2_duplicate_in_flight :
    (∀ (cfg : GwCfg) (now : Nat) (g : Gateway) (req : GwReq) (e : CacheEntry),
      gatesOpenBatch cfg now g req = true → ridOf req ≠ "" →
      lookupA g.dedup (ridOf req) = some e → e.processing = true →
      handleBatch cfg now g req =
        (⟨409, .errMsg "Duplicate request in progress"⟩,
          { g with rl := (RateLimiter.isAllowed cfg.rateMax cfg.rateWindowMs g.rl
              (rlKeyOf req) now).1 })) ∧
    (∀ (cfg : GwCfg) (now : Nat) (g : Gateway) (req : GwReq) (e : CacheEntry),
      gatesOpenUpdate cfg now g req = true → ridOf req ≠ "" →
      lookupA g.dedup (ridOf req) = some e → e.processing = true →
      handleUpdate cfg now g req =
        (⟨409, .errMsg "Duplicate request in progress"⟩,
          { g with rl := (RateLimiter.isAllowed cfg.rateMax cfg.rateWindowMs g.rl
              (rlKeyOf req) now).1 })) ∧
    (∀ (cfg : GwCfg) (now : Nat) (k : String) (g : Gateway) (r1 : GwReq)
        (rs : List GwReq),
      ridOf r1 = k → (∀ r ∈ rs, ridOf r = k) → k ≠ "" →
      lookupA g.dedup k = none →
      gatesAllBatch cfg now g (r1 :: rs) = true →
      isProceed (beginBatch cfg now g r1) = true ∧
      (∀ o ∈ (beginFoldBatch cfg now g (r1 :: rs)).2.tail, isConflict409 o = true) ∧
      (beginFoldBatch cfg now g (r1 :: rs)).2.countP isProceed = 1 ∧
      (beginFoldBatch cfg now g (r1 :: rs)).1.writesIssued = g.writesIssued) := by
  refine ⟨?_, ?_, ?_⟩
  · intro cfg now g req e hg hrid hl hp
    rw [handleBatch, beginBatch_processing cfg now g req e hg hrid hl hp]
  · intro cfg now g req e hg hrid hl hp
    rw [handleUpdate, beginUpdate_processing cfg now g req e hg hrid hl hp]
  · intro cfg now k g r1 rs hk1 hks hne hl hgall
    simp only [gatesAllBatch, Bool.and_eq_true] at hgall
    obtain ⟨hg1, hgrest⟩ := hgall
    have hbeg := beginBatch_fresh cfg now g r1 hg1 (by rw [hk1]; exact hne)
      (by rw [hk1]; exact hl)
    have hstate : stateOf (beginBatch cfg now g r1) =
        ⟨setA g.dedup (ridOf r1) ⟨true, none, none, now⟩,
          (RateLimiter.isAllowed cfg.rateMax cfg.rateWindowMs g.rl (rlKeyOf r1) now).1,
          g.writesIssued, g.localTotals, g.recent, g.known⟩ := by
      rw [hbeg]; rfl
    have hlook : lookupA (stateOf (beginBatch cfg now g r1)).dedup k =
        some ⟨true, none, none, now⟩ := by
      rw [hstate]
      simp only
      rw [← hk1, lookupA_setA_self]
    have hrec := beginFoldBatch_conflict cfg now k rs
      (stateOf (beginBatch cfg now g r1)) ⟨true, none, none, now⟩
      hks hne hlook rfl hgrest
    have hwrites : (stateOf (beginBatch cfg now g r1)).writesIssued = g.writesIssued := by
      rw [hstate]
    refine ⟨by rw [hbeg]; rfl, ?_, ?_, ?_⟩
    · intro o ho
      simp only [beginFoldBatch, List.tail_cons] at ho
      exact hrec.1 o ho
    · simp only [beginFoldBatch, List.countP_cons]
      have hzero : (beginFoldBatch cfg now
          (stateOf (beginBatch cfg now g r1)) rs).2.countP isProceed = 0 := by
        rw [List.countP_eq_zero]
        intro o ho
        have hc := hrec.1 o ho
        cases o with
        | early r g' => simp [isProceed]
        | proceed g' rid => simp [isConflict409] at hc
      rw [hzero, hbeg]
      simp [isProceed]
    · simp only [beginFoldBatch]
      rw [hrec.2.2, hwrites]

/-! ## Concrete instances for witnesses and for the C5/C6 evaluations -/

/-- Concrete gateway configuration built on the concrete HMAC primitives of
`hmacCfg0`. -/
def gwCfg0 : GwCfg :=
  ⟨true, true, [], "sek", "", hmacCfg0, 20, 60000, 100, true, true, true,
    "0xgame", fun _ => true, fun _ => none, fun _ => []⟩

/-- A request with server API key, fresh HMAC headers, idempotency key
`key`, and signature `sig`.  With `hmacCfg0` the expected digest is `00`
(one byte), so `sig = "00"` verifies and `sig = "a"` decodes to zero bytes,
making `crypto.timingSafeEqual` throw. -/
def mkReq (key sig : String) : GwReq :=
  ⟨none, "sek", "", key, "", "0", "n", sig, some [], "", none, none,
    "", "", "", "", "", "", none, none, .error "no write", fun _ => (0, 0, 0, 0)⟩

def emptyGw : Gateway := ⟨[], [], 0, [], [], []⟩

def storedPayload0 : BatchPayload := ⟨"0xth", ⟨"0xth", "0xth", 1, "success"⟩, []⟩

/-- A `Done` record holding the result of an earlier successful execution. -/
def doneEntry0 : CacheEntry := ⟨false, some (.batchP storedPayload0), none, 5⟩

def gwDone0 : Gateway := ⟨[("k", doneEntry0)], [], 0, [], [], []⟩

/-- Closed witness for `c1_done_replay`: replaying key `k` after completion
returns the stored payload with no write and no dedup change. -/
theorem c1_done_replay_witness :
    handleBatch gwCfg0 0 gwDone0 (mkReq "k" "00") =
      (⟨200, doneBodyBatch doneEntry0⟩,
        { gwDone0 with rl := (RateLimiter.isAllowed gwCfg0.rateMax gwCfg0.rateWindowMs
            gwDone0.rl (rlKeyOf (mkReq "k" "00")) 0).1 }) :=
  c1_done_replay.1 gwCfg0 0 gwDone0 (mkReq "k" "00") doneEntry0
    (by decide) (by decide) (by decide) (by decide)

/-- Closed witness for `c2_duplicate_in_flight`: a two-request burst under
one fresh key issues no write during the burst. -/
theorem c2_duplicate_in_flight_witness :
    (beginFoldBatch gwCfg0 0 emptyGw [mkReq "k" "00", mkReq "k" "00"]).1.writesIssued =
      emptyGw.writesIssued :=
  (c2_duplicate_in_flight.2.2 gwCfg0 0 "k" emptyGw (mkReq "k" "00") [mkReq "k" "00"]
    (by decide) (by decide) (by decide) (by decide) (by decide)).2.2.2

/-- Claim C5, code bug, evaluated at the failing input: key `k` holds a
`Done` record with a stored success payload; a later request bearing `k`
with valid API key and HMAC headers but the malformed signature `"a"`
(hex-decodes to zero bytes while the digest has one) makes
`crypto.timingSafeEqual` throw before the dedup check, and the catch
handler unconditionally stores a `done` error record under `k`,
overwriting the immutable `Done` record. -/
theorem c5_done_record_overwritten :
    lookupA gwDone0.dedup "k" = some doneEntry0 ∧
    doneEntry0.processing = false ∧
    (handleBatch gwCfg0 0 gwDone0 (mkReq "k" "a")).1 = ⟨500, .errMsg tseMessage⟩ ∧
    (handleBatch gwCfg0 0 gwDone0 (mkReq "k" "a")).2.dedup =
      [("k", ⟨false, none, some ⟨500, tseMessage⟩, 0⟩)] ∧
    lookupA (handleBatch gwCfg0 0 gwDone0 (mkReq "k" "a")).2.dedup "k" ≠
      some doneEntry0 := by
  decide

/-- Claim C6, code bug, evaluated at the failing input: a request whose
signature does not match (it decodes to zero bytes) fails authentication,
yet the gateway's idempotency store is modified — the thrown
`timingSafeEqual` error reaches the catch handler, which creates a `done`
error record under the request's key before any authentication succeeded. -/
theorem c6_auth_failure_side_effect :
    nodeHexDecode (strip0x (mkReq "k6" "a").sig.data) ≠
      nodeHexDecode (hmacCfg0.hmacHex hmacCfg0.hmacSecret
        (hmacPayload hmacCfg0 0 "n" [])).data ∧
    (handleBatch gwCfg0 0 emptyGw (mkReq "k6" "a")).1.status = 500 ∧
    (handleBatch gwCfg0 0 emptyGw (mkReq "k6" "a")).2.dedup =
      [("k6", ⟨false, none, some ⟨500, tseMessage⟩, 0⟩)] ∧
    (handleBatch gwCfg0 0 emptyGw (mkReq "k6" "a")).2.dedup ≠ emptyGw.dedup := by
  decide

end MonadPoker
